import Mathlib

/-!
Shallow embedding of the CSV data cleaner (`csv_data_cleaner.py`).

A pandas `DataFrame` is modelled as a `Table`: a list of column names, a
parallel list of column dtypes, and a list of rows, each row carrying its
pandas index label together with its cell values (positionally aligned
with the column names).  Cell values are strings, integers, parsed
datetimes, the missing marker (`NaN`/`NaT`), or an opaque non-scalar
object.  The external date parser `pd.to_datetime` applied to a single
value is modelled as an abstract function `parse : String → Option Nat`
(`none` = raises, i.e. the value does not parse; `some d` = the parsed
datetime value, represented abstractly).  The possibility that a whole-
column `pd.to_datetime(col, errors=..., ...)` call raises an exception is
modelled by an abstract predicate `fails : List Cell → Bool` on the
column's cells.
-/

/-- A cell value of a table: the missing marker (`NaN`/`NaT`), a string,
an integer, a parsed datetime (abstract value), or a non-scalar object. -/
inductive Cell
  | missing
  | str (s : String)
  | int (n : Int)
  | dt (d : Nat)
  | other
deriving DecidableEq, Repr

/-- The pandas dtype of a column: `object` (free text / mixed), numeric,
or `datetime64`. -/
inductive Dtype
  | obj
  | num
  | dt64
deriving DecidableEq, Repr

/-- A pandas DataFrame: named, dtyped columns and index-labelled rows. -/
structure Table where
  names : List String
  dtypes : List Dtype
  rows : List (Nat × List Cell)
deriving DecidableEq, Repr

/-- Well-formedness of a table: the dtype list is parallel to the name
list and every row has exactly one cell per column. -/
def Table.WF (t : Table) : Prop :=
  t.dtypes.length = t.names.length ∧
    ∀ r ∈ t.rows, (Prod.snd r).length = t.names.length

instance (t : Table) : Decidable t.WF := by
  unfold Table.WF
  exact instDecidableAnd

/-- `str(val)` in Python, for the cell values the cleaner handles.
`str(nan)` is the literal string `"nan"`; datetime and non-scalar values
stringify to abstract representative forms. -/
def cellStr : Cell → String
  | .missing => "nan"
  | .str s => s
  | .int n => toString n
  | .dt d => "dt:" ++ toString d
  | .other => "object"

/-- `pd.isna` on a single cell: true exactly for the missing marker. -/
def pdIsna : Cell → Bool
  | .missing => true
  | _ => false

/-- `isinstance(val, (str, int, float))`: the cell is a scalar string or
number (the model folds Python `int`/`float` into one constructor). -/
def isScalarCell : Cell → Bool
  | .str _ => true
  | .int _ => true
  | _ => false

/-- Does the character list start with the given character list? -/
def startsWithSeq : List Char → List Char → Bool
  | [], _ => true
  | _ :: _, [] => false
  | n :: ns, h :: hs => n == h && startsWithSeq ns hs

/-- Does the character list contain the given character list as a
contiguous run? -/
def containsSeq (needle : List Char) : List Char → Bool
  | [] => startsWithSeq needle []
  | h :: hs => startsWithSeq needle (h :: hs) || containsSeq needle hs

/-- Python `pat in hay` on strings: substring containment. -/
def strContains (hay pat : String) : Bool :=
  containsSeq pat.toList hay.toList

/-- Python `str.lower()` (ASCII case folding, as exercised here). -/
def pyLower (s : String) : String :=
  ⟨s.toList.map Char.toLower⟩

/-- Strip leading whitespace from a character list. -/
def stripLeading (l : List Char) : List Char :=
  l.dropWhile Char.isWhitespace

/-- Python `str.strip()` on a character list: drop leading and trailing
whitespace. -/
def pyStripList (l : List Char) : List Char :=
  ((stripLeading l).reverse.dropWhile Char.isWhitespace).reverse

/-- Python `str.strip()`. -/
def pyStrip (s : String) : String :=
  ⟨pyStripList s.toList⟩

/-- The fixed keyword set of the name-based pass of
`detect_date_columns`. -/
def dateKeywords : List String :=
  ["date", "time", "datetime", "timestamp", "created", "modified"]

/-- `any(keyword in col_lower for keyword in [...])` on the lower-cased
column name. -/
def nameIsDateLike (name : String) : Bool :=
  dateKeywords.any (fun k => strContains (pyLower name) k)

/-- `any(sep in val_str for sep in ['-', '/', ':', ' '])`. -/
def hasDateSeparator (s : String) : Bool :=
  s.toList.any (fun c => c == '-' || c == '/' || c == ':' || c == ' ')

/-- `any(char.isdigit() for char in val_str)`. -/
def hasDigitChar (s : String) : Bool :=
  s.toList.any Char.isDigit

/-- The cells of column `i` of a table, top to bottom. -/
def colCells (t : Table) (i : Nat) : List Cell :=
  t.rows.map (fun r => (Prod.snd r).getD i Cell.missing)

/-- `df[col].dropna().head(20)`: the first 20 non-missing values of a
column. -/
def sampledCells (cells : List Cell) : List Cell :=
  (cells.filter (fun c => !(pdIsna c))).take 20

/-- The sampled values that survive the
`if pd.isna(val) or not isinstance(val, (str, int, float)): continue`
guard — exactly the values counted in `total_sampled`. -/
def countedCells (cells : List Cell) : List Cell :=
  (sampledCells cells).filter (fun c => !(pdIsna c) && isScalarCell c)

/-- `date_indicators`: among the counted samples, those whose string form
has a date separator and a digit and that `pd.to_datetime` parses. -/
def indicatorCount (parse : String → Option Nat) (cells : List Cell) : Nat :=
  (countedCells cells).countP (fun c =>
    hasDateSeparator (cellStr c) && hasDigitChar (cellStr c) &&
      (parse (cellStr c)).isSome)

/-- The content-based test of `detect_date_columns` on one column:
`len(sample_values) > 0` and
`total_sampled > 0 and date_indicators / total_sampled > 0.3`
(the float comparison is exact for the fractions reachable with at most
20 samples, so it is modelled as `10 * indicators > 3 * total`). -/
def contentDateLike (parse : String → Option Nat) (cells : List Cell) : Bool :=
  if (sampledCells cells).isEmpty then false
  else
    let total := (countedCells cells).length
    let indicators := indicatorCount parse cells
    decide (0 < total) && decide (3 * total < 10 * indicators)

/-- The second loop of `detect_date_columns`: walk the columns in order
(`i` is the position of the first remaining column), skip columns already
in the accumulated `date_columns` list, and append a column whose sampled
content looks date-like. -/
def detectAux (parse : String → Option Nat) (t : Table) :
    Nat → List String → List String → List String
  | _, acc, [] => acc
  | i, acc, name :: rest =>
    if name ∈ acc then detectAux parse t (i + 1) acc rest
    else if contentDateLike parse (colCells t i) then
      detectAux parse t (i + 1) (acc ++ [name]) rest
    else detectAux parse t (i + 1) acc rest

/-- `detect_date_columns`: the name-based pass followed by the
content-based pass. -/
def detectDateColumns (parse : String → Option Nat) (t : Table) : List String :=
  detectAux parse t 0 (t.names.filter nameIsDateLike) t.names

/-- Position of the first column with the given name, if any
(`col in df.columns` and the subsequent by-name column access). -/
def findColIdx : List String → String → Option Nat
  | [], _ => none
  | n :: ns, name =>
    if n = name then some 0
    else match findColIdx ns name with
      | some i => some (i + 1)
      | none => none

/-- Apply a function to the cell at one position of a row, leaving the
rest of the row unchanged. -/
def mapAt : Nat → (Cell → Cell) → List Cell → List Cell
  | _, _, [] => []
  | 0, f, c :: r => f c :: r
  | n + 1, f, c :: r => c :: mapAt n f r

/-- Apply a function to every cell of column `i`. -/
def mapColumn (i : Nat) (f : Cell → Cell) (rows : List (Nat × List Cell)) :
    List (Nat × List Cell) :=
  rows.map (fun r => (r.1, mapAt i f r.2))

/-- `pd.to_datetime(_, errors='coerce')` on one cell: missing stays
missing (NaT), a parsable value becomes a datetime, an unparsable value
becomes the missing marker. -/
def coerceCell (parse : String → Option Nat) : Cell → Cell
  | .missing => .missing
  | c =>
    match parse (cellStr c) with
    | some d => .dt d
    | none => .missing

/-- One iteration of the loop of `convert_to_datetime`: skip a column
name absent from the table; otherwise convert the column with
`errors='coerce'` (setting its dtype to `datetime64`), unless the
column-level call raises, in which case a warning naming the column is
recorded and the column is left unmodified. -/
def convertStep (parse : String → Option Nat) (fails : List Cell → Bool)
    (acc : Table × List String) (col : String) : Table × List String :=
  match findColIdx acc.1.names col with
  | none => acc
  | some i =>
    if fails (colCells acc.1 i) then (acc.1, acc.2 ++ [col])
    else
      ({ acc.1 with
          dtypes := acc.1.dtypes.set i Dtype.dt64,
          rows := mapColumn i (coerceCell parse) acc.1.rows },
        acc.2)

/-- `convert_to_datetime(df, date_columns)`, also returning the list of
column names for which a warning was printed. -/
def convertToDatetime (parse : String → Option Nat) (fails : List Cell → Bool)
    (t : Table) (dateCols : List String) : Table × List String :=
  dateCols.foldl (convertStep parse fails) (t, [])

/-- The per-cell transformation of the text-cleaning loop on one column:
`astype(str)`, `str.strip()`, `str.lower()` (only when the column is not
a detected date column), then `replace('nan', np.nan)` and
`replace('none', np.nan)`. -/
def textCell (isDateCol : Bool) (c : Cell) : Cell :=
  let s := pyStrip (cellStr c)
  let s := if isDateCol then s else pyLower s
  if s = "nan" || s = "none" then .missing else .str s

/-- The transformation the text-cleaning loop applies to one column:
columns that are not `object`-dtyped or that are in the exclusion list
are left alone. -/
def colFun (dateCols excl : List String) (name : String) (dty : Dtype) :
    Cell → Cell :=
  if dty == Dtype.obj && !(decide (name ∈ excl)) then
    textCell (decide (name ∈ dateCols))
  else id

/-- Apply a list of per-column functions positionally to a row; cells
beyond the function list are left unchanged. -/
def applyFuns : List (Cell → Cell) → List Cell → List Cell
  | [], r => r
  | _ :: _, [] => []
  | f :: fs, c :: r => f c :: applyFuns fs r

/-- The text-cleaning loop of `clean_dataframe` (the Text Normalizer):
every `object`-dtyped column not in the exclusion list is stringified,
stripped, lower-cased unless it is a detected date column, and has the
sentinel strings `'nan'`/`'none'` replaced by the missing marker. -/
def textNormalize (dateCols excl : List String) (t : Table) : Table :=
  { t with
    rows := t.rows.map (fun r =>
      (r.1, applyFuns (List.zipWith (colFun dateCols excl) t.names t.dtypes) r.2)) }

/-- Does the row consist entirely of missing values? -/
def rowAllNa (r : List Cell) : Bool :=
  r.all pdIsna

/-- `df.dropna(how='all')`: keep the rows with at least one non-missing
value. -/
def dropAllNaRows (rows : List (Nat × List Cell)) : List (Nat × List Cell) :=
  rows.filter (fun r => !(rowAllNa r.2))

/-- `df.drop_duplicates()`: keep a row when its cell values were not seen
in an earlier kept row. -/
def dropDupAux (seen : List (List Cell)) :
    List (Nat × List Cell) → List (Nat × List Cell)
  | [] => []
  | r :: rs =>
    if r.2 ∈ seen then dropDupAux seen rs
    else r :: dropDupAux (r.2 :: seen) rs

/-- `df.drop_duplicates()` (first occurrence kept, index labels kept). -/
def dropDuplicates (rows : List (Nat × List Cell)) : List (Nat × List Cell) :=
  dropDupAux [] rows

/-- `df.reset_index(drop=True)`: renumber the rows 0, 1, 2, …. -/
def resetIndex (rows : List (Nat × List Cell)) : List (Nat × List Cell) :=
  (rows.map Prod.snd).enum

/-- The row stage of `clean_dataframe` (the Row Reducer): drop all-NaN
rows, then drop duplicate rows, then reset the index. -/
def rowReduce (rows : List (Nat × List Cell)) : List (Nat × List Cell) :=
  resetIndex (dropDuplicates (dropAllNaRows rows))

/-- The names of the `object`-dtyped columns
(`df.select_dtypes(include='object').columns`). -/
def selectObjectColumns (t : Table) : List String :=
  ((t.names.zip t.dtypes).filter (fun p => p.2 == Dtype.obj)).map Prod.fst

/-- The quantities `clean_dataframe` reports while running, plus the
datetime-conversion warnings. -/
structure Metrics where
  initialRows : Nat
  initialCols : Nat
  dateColumns : List String
  textColumns : List String
  emptyRemoved : Nat
  duplicatesRemoved : Nat
  finalRows : Nat
  finalCols : Nat
  totalRemoved : Nat
  warnings : List String
deriving DecidableEq, Repr

/-- `clean_dataframe(df, exclude_columns)`: the full cleaning pipeline on
a working copy of the input table, returning the cleaned table and the
reported metrics. -/
def cleanDataframe (parse : String → Option Nat) (fails : List Cell → Bool)
    (df : Table) (excludeColumns : List String) : Table × Metrics :=
  let dfC := df
  let initialRows := dfC.rows.length
  let initialCols := dfC.names.length
  let dateCols := detectDateColumns parse dfC
  let conv := convertToDatetime parse fails dfC dateCols
  let dfC := conv.1
  let textCols := selectObjectColumns dfC
  let dfC := textNormalize dateCols excludeColumns dfC
  let dfC := { dfC with rows := dropAllNaRows dfC.rows }
  let allNanRemoved := initialRows - dfC.rows.length
  let afterNan := dfC.rows.length
  let dfC := { dfC with rows := dropDuplicates dfC.rows }
  let dupRemoved := afterNan - dfC.rows.length
  let dfC := { dfC with rows := resetIndex dfC.rows }
  (dfC,
    { initialRows := initialRows
      initialCols := initialCols
      dateColumns := dateCols
      textColumns := textCols
      emptyRemoved := allNanRemoved
      duplicatesRemoved := dupRemoved
      finalRows := dfC.rows.length
      finalCols := dfC.names.length
      totalRemoved := initialRows - dfC.rows.length
      warnings := conv.2 })

/-- Read a slot of a store of tables (a Python variable environment for
DataFrame references). -/
def storeGet (s : List Table) (i : Nat) : Table :=
  s.getD i { names := [], dtypes := [], rows := [] }

/-- Overwrite a slot of a store of tables. -/
def storeSet (s : List Table) (i : Nat) (t : Table) : List Table :=
  s.set i t

/-- `clean_dataframe` as it acts on the caller's environment:
`df_cleaned = df.copy()` allocates a fresh slot holding a copy of the
caller's table, and every subsequent mutating statement of the function
targets that fresh slot, which finally holds the pipeline's result.
Returns the new store and the slot of the cleaned table. -/
def cleanStore (parse : String → Option Nat) (fails : List Cell → Bool)
    (excludeColumns : List String) (s : List Table) (i : Nat) :
    List Table × Nat :=
  let j := s.length
  let s1 := s ++ [storeGet s i]
  let s2 := storeSet s1 j (cleanDataframe parse fails (storeGet s1 j) excludeColumns).1
  (s2, j)

/-- The content-based classification rule as the specification words it
(for comparison with `contentDateLike`): a parse is attempted only for
sampled values whose string form has a digit and a separator, and the
classification fraction is taken among the *attempted* samples. -/
def specContentDateLike (parse : String → Option Nat) (cells : List Cell) : Bool :=
  if (sampledCells cells).isEmpty then false
  else
    let attempted := (countedCells cells).filter (fun c =>
      hasDateSeparator (cellStr c) && hasDigitChar (cellStr c))
    let succ := attempted.countP (fun c => (parse (cellStr c)).isSome)
    decide (0 < attempted.length) && decide (3 * attempted.length < 10 * succ)

/-- Deduplication as the specification words it: keep each row, and
remove from the remainder every row whose cell values duplicate it. -/
def specDedup : List (Nat × List Cell) → List (Nat × List Cell)
  | [] => []
  | r :: rs => r :: specDedup (rs.filter (fun x => x.2 ≠ r.2))
termination_by l => l.length
decreasing_by
  simp only [List.length_cons]
  exact Nat.lt_succ_of_le (List.length_filter_le _ _)

/-- A concrete date parser instance: recognises exactly "1-2-2020". -/
def demoParse : String → Option Nat :=
  fun s => if s = "1-2-2020" then some 5 else none

/-- A one-column table whose column "v" holds one parsable date string
and three non-date strings without digits. -/
def tSparse : Table :=
  { names := ["v"], dtypes := [Dtype.obj],
    rows := [(0, [Cell.str "1-2-2020"]), (1, [Cell.str "abc"]),
             (2, [Cell.str "def"]), (3, [Cell.str "xyz"])] }

/-- A one-column table whose `object`-dtyped column is named "date" and
holds a value with inner and outer spaces. -/
def tDateText : Table :=
  { names := ["date"], dtypes := [Dtype.obj],
    rows := [(0, [Cell.str " A B "])] }

/-- A two-column table used to exercise the Text Normalizer: a plain
text column with sentinel strings and an excluded mixed-case column. -/
def tMixed : Table :=
  { names := ["Name", "ID"], dtypes := [Dtype.obj, Dtype.obj],
    rows := [(0, [Cell.str "NaN", Cell.str " Ab "]),
             (1, [Cell.str "None", Cell.str "cD"]),
             (2, [Cell.str "none", Cell.str "EF"])] }

/-- A one-column table named "ts" holding two parsable values. -/
def tConv : Table :=
  { names := ["ts"], dtypes := [Dtype.obj],
    rows := [(0, [Cell.str "1-2-2020"]), (1, [Cell.str "oops"]),
             (2, [Cell.missing])] }

/-- The per-row cell transformation performed by one iteration of the
`convert_to_datetime` loop in the state `acc`: the identity when the
column is absent or its column-level conversion raises, and otherwise
the coercion of the cell at the column's position. -/
def convertStepRowFun (p : String → Option Nat) (f : List Cell → Bool)
    (acc : Table × List String) (col : String) : List Cell → List Cell :=
  match findColIdx acc.1.names col with
  | none => id
  | some i =>
    if f (colCells acc.1 i) then id else mapAt i (coerceCell p)

/-- The per-row cell transformation performed by the whole
`convert_to_datetime` loop started in the state `acc`: the step
transformations composed left to right, each decided against the table
state at its own iteration. -/
def convertRowFunAux (p : String → Option Nat) (f : List Cell → Bool) :
    List String → (Table × List String) → List Cell → List Cell
  | [], _ => id
  | col :: rest, acc => fun r =>
    convertRowFunAux p f rest (convertStep p f acc col)
      (convertStepRowFun p f acc col r)

/-- The per-row cell transformation of `convert_to_datetime` on a
table. -/
def convertRowFun (p : String → Option Nat) (f : List Cell → Bool)
    (t : Table) (dateCols : List String) : List Cell → List Cell :=
  convertRowFunAux p f dateCols (t, [])

/-- The per-row cell transformation of the Text Normalizer over a given
table's columns. -/
def textRowFun (dateCols excl : List String) (u : Table) :
    List Cell → List Cell :=
  applyFuns (List.zipWith (colFun dateCols excl) u.names u.dtypes)

/-- Dropping a prefix twice is the same as dropping it once. -/
theorem dropWhile_dropWhile (p : Char → Bool) (l : List Char) :
    (l.dropWhile p).dropWhile p = l.dropWhile p := by
  induction l with
  | nil => rfl
  | cons a l ih =>
    by_cases h : p a
    · simp [List.dropWhile_cons, h, ih]
    · simp [List.dropWhile_cons, h]

/-- The head of a nonempty `dropWhile` result fails the predicate. -/
theorem not_of_dropWhile_cons {p : Char → Bool} {l : List Char} {a : Char}
    {t : List Char} (h : l.dropWhile p = a :: t) : p a = false := by
  induction l with
  | nil => simp at h
  | cons b l ih =>
    rw [List.dropWhile_cons] at h
    split at h
    · exact ih h
    · next hb =>
      injection h with h1 _
      subst h1
      simpa using hb

/-- A character list equals the reversed `dropWhile` of its reverse
followed by a remainder. -/
theorem eq_revDrop_append (p : Char → Bool) (m : List Char) :
    m = (m.reverse.dropWhile p).reverse ++ (m.reverse.takeWhile p).reverse := by
  rw [← List.reverse_append, List.takeWhile_append_dropWhile, List.reverse_reverse]

/-- A stripped list has no leading whitespace. -/
theorem stripLeading_pyStripList (l : List Char) :
    stripLeading (pyStripList l) = pyStripList l := by
  cases hd : pyStripList l with
  | nil => rfl
  | cons a x =>
    have hd' : ((stripLeading l).reverse.dropWhile Char.isWhitespace).reverse
        = a :: x := hd
    have h1 := eq_revDrop_append Char.isWhitespace (stripLeading l)
    rw [hd'] at h1
    have h2 : l.dropWhile Char.isWhitespace =
        a :: (x ++ ((stripLeading l).reverse.takeWhile Char.isWhitespace).reverse) := by
      simpa [stripLeading] using h1
    have h3 : Char.isWhitespace a = false := not_of_dropWhile_cons h2
    show List.dropWhile Char.isWhitespace (a :: x) = a :: x
    rw [List.dropWhile_cons, h3]
    simp

/-- A stripped list has no trailing whitespace. -/
theorem revDrop_pyStripList (l : List Char) :
    (pyStripList l).reverse.dropWhile Char.isWhitespace =
      (pyStripList l).reverse := by
  unfold pyStripList
  rw [List.reverse_reverse]
  exact dropWhile_dropWhile _ _

/-- Stripping is idempotent. -/
theorem pyStripList_idem (l : List Char) :
    pyStripList (pyStripList l) = pyStripList l := by
  conv_lhs => rw [pyStripList]
  rw [stripLeading_pyStripList, revDrop_pyStripList, List.reverse_reverse]

/-- Window for `Char.toLower`: lowering an upper-case code point adds 32
and lands strictly outside the upper-case window. -/
theorem charOfNat_lower_window :
    ∀ n : Nat, n < 91 → 64 < n → (Char.ofNat (n + 32)).toNat = n + 32 := by
  decide

/-- `Char.toLower` unfolded. -/
theorem toLower_eq (c : Char) :
    Char.toLower c =
      if c.toNat ≥ 65 ∧ c.toNat ≤ 90 then Char.ofNat (c.toNat + 32) else c := rfl

/-- Lower-casing a character is idempotent. -/
theorem toLower_toLower (c : Char) :
    Char.toLower (Char.toLower c) = Char.toLower c := by
  rw [toLower_eq c]
  by_cases h : c.toNat ≥ 65 ∧ c.toNat ≤ 90
  · rw [if_pos h, toLower_eq]
    have hn := charOfNat_lower_window c.toNat (by omega) (by omega)
    rw [if_neg (by omega)]
  · rw [if_neg h, toLower_eq, if_neg h]

/-- Whitespace membership expressed through the code point. -/
theorem isWhitespace_iff_toNat (c : Char) :
    c.isWhitespace = true ↔
      (c.toNat = 32 ∨ c.toNat = 9 ∨ c.toNat = 13 ∨ c.toNat = 10) := by
  show (decide (c = ' ') || decide (c = '\t') || decide (c = '\r') ||
    decide (c = '\n')) = true ↔ _
  simp only [Bool.or_eq_true, decide_eq_true_eq, Char.ext_iff, UInt32.ext_iff]
  have h1 : (' ' : Char).val.toNat = 32 := rfl
  have h2 : ('\t' : Char).val.toNat = 9 := rfl
  have h3 : ('\r' : Char).val.toNat = 13 := rfl
  have h4 : ('\n' : Char).val.toNat = 10 := rfl
  rw [h1, h2, h3, h4]
  show _ ↔ (c.val.toNat = 32 ∨ c.val.toNat = 9 ∨ c.val.toNat = 13 ∨
    c.val.toNat = 10)
  omega

/-- Lower-casing does not create or destroy whitespace. -/
theorem isWhitespace_toLower (c : Char) :
    (Char.toLower c).isWhitespace = c.isWhitespace := by
  rw [toLower_eq c]
  by_cases h : c.toNat ≥ 65 ∧ c.toNat ≤ 90
  · rw [if_pos h]
    have hn := charOfNat_lower_window c.toNat (by omega) (by omega)
    have h1 : (Char.ofNat (c.toNat + 32)).isWhitespace = false := by
      rw [← Bool.not_eq_true, isWhitespace_iff_toNat]
      omega
    have h2 : c.isWhitespace = false := by
      rw [← Bool.not_eq_true, isWhitespace_iff_toNat]
      omega
    rw [h1, h2]
  · rw [if_neg h]

/-- `dropWhile` commutes with a map that preserves the predicate. -/
theorem dropWhile_map_toLower (l : List Char) :
    (l.map Char.toLower).dropWhile Char.isWhitespace =
      (l.dropWhile Char.isWhitespace).map Char.toLower := by
  induction l with
  | nil => rfl
  | cons a l ih =>
    by_cases h : Char.isWhitespace a
    · simp [List.dropWhile_cons, h, isWhitespace_toLower, ih]
    · simp [List.dropWhile_cons, h, isWhitespace_toLower]

/-- Stripping commutes with lower-casing. -/
theorem pyStripList_map_toLower (l : List Char) :
    pyStripList (l.map Char.toLower) = (pyStripList l).map Char.toLower := by
  unfold pyStripList stripLeading
  rw [dropWhile_map_toLower, ← List.map_reverse, dropWhile_map_toLower,
    ← List.map_reverse]

/-- String-level: stripping is idempotent. -/
theorem pyStrip_pyStrip (s : String) : pyStrip (pyStrip s) = pyStrip s := by
  show (⟨pyStripList (String.toList ⟨pyStripList s.toList⟩)⟩ : String) =
    ⟨pyStripList s.toList⟩
  rw [show String.toList ⟨pyStripList s.toList⟩ = pyStripList s.toList from rfl,
    pyStripList_idem]

/-- String-level: lower-casing is idempotent. -/
theorem pyLower_pyLower (s : String) : pyLower (pyLower s) = pyLower s := by
  show (⟨(String.toList ⟨s.toList.map Char.toLower⟩).map Char.toLower⟩ : String) = _
  rw [show String.toList ⟨s.toList.map Char.toLower⟩ = s.toList.map Char.toLower
    from rfl, List.map_map]
  exact congrArg _ (List.map_congr_left fun a _ => toLower_toLower a)

/-- String-level: stripping commutes with lower-casing. -/
theorem pyStrip_pyLower (s : String) :
    pyStrip (pyLower s) = pyLower (pyStrip s) := by
  show (⟨pyStripList (String.toList ⟨s.toList.map Char.toLower⟩)⟩ : String) = _
  rw [show String.toList ⟨s.toList.map Char.toLower⟩ = s.toList.map Char.toLower
    from rfl, pyStripList_map_toLower]
  rfl

/-- `textCell` on a date column, unfolded. -/
theorem textCell_true_def (c : Cell) :
    textCell true c =
      if pyStrip (cellStr c) = "nan" || pyStrip (cellStr c) = "none" then
        Cell.missing
      else Cell.str (pyStrip (cellStr c)) := rfl

/-- `textCell` on a non-date column, unfolded. -/
theorem textCell_false_def (c : Cell) :
    textCell false c =
      if pyLower (pyStrip (cellStr c)) = "nan" ||
          pyLower (pyStrip (cellStr c)) = "none" then Cell.missing
      else Cell.str (pyLower (pyStrip (cellStr c))) := rfl

/-- The per-cell text-cleaning transformation is idempotent. -/
theorem textCell_idem (b : Bool) (c : Cell) :
    textCell b (textCell b c) = textCell b c := by
  cases b with
  | true =>
    by_cases h : (pyStrip (cellStr c) = "nan" ∨ pyStrip (cellStr c) = "none")
    · have e : textCell true c = Cell.missing := by
        rw [textCell_true_def c]
        rcases h with h | h <;> simp [h]
      rw [e]
      decide
    · push_neg at h
      have e : textCell true c = Cell.str (pyStrip (cellStr c)) := by
        rw [textCell_true_def c]
        simp [h.1, h.2]
      rw [e, textCell_true_def (Cell.str (pyStrip (cellStr c)))]
      rw [show cellStr (Cell.str (pyStrip (cellStr c))) = pyStrip (cellStr c)
        from rfl, pyStrip_pyStrip]
      simp [h.1, h.2, e]
  | false =>
    by_cases h : (pyLower (pyStrip (cellStr c)) = "nan" ∨
        pyLower (pyStrip (cellStr c)) = "none")
    · have e : textCell false c = Cell.missing := by
        rw [textCell_false_def c]
        rcases h with h | h <;> simp [h]
      rw [e]
      decide
    · push_neg at h
      have e : textCell false c = Cell.str (pyLower (pyStrip (cellStr c))) := by
        rw [textCell_false_def c]
        simp [h.1, h.2]
      rw [e, textCell_false_def (Cell.str (pyLower (pyStrip (cellStr c))))]
      rw [show cellStr (Cell.str (pyLower (pyStrip (cellStr c)))) =
        pyLower (pyStrip (cellStr c)) from rfl]
      rw [pyStrip_pyLower, pyStrip_pyStrip, pyLower_pyLower]
      simp [h.1, h.2, e]

/-- The per-column function of the Text Normalizer is idempotent. -/
theorem colFun_idem (dateCols excl : List String) (name : String)
    (dty : Dtype) (c : Cell) :
    colFun dateCols excl name dty (colFun dateCols excl name dty c) =
      colFun dateCols excl name dty c := by
  unfold colFun
  by_cases h : (dty == Dtype.obj && !(decide (name ∈ excl))) = true
  · rw [if_pos h]
    exact textCell_idem _ c
  · rw [if_neg h]
    rfl

/-- Applying a list of pointwise-idempotent functions to a row is
idempotent. -/
theorem applyFuns_idem (fs : List (Cell → Cell))
    (h : ∀ f ∈ fs, ∀ c, f (f c) = f c) (r : List Cell) :
    applyFuns fs (applyFuns fs r) = applyFuns fs r := by
  induction fs generalizing r with
  | nil => rfl
  | cons f fs ih =>
    cases r with
    | nil => rfl
    | cons c r =>
      show f (f c) :: applyFuns fs (applyFuns fs r) = f c :: applyFuns fs r
      rw [h f (List.mem_cons_self f fs) c,
        ih (fun g hg => h g (List.mem_cons_of_mem f hg)) r]

/-- Every function in the Text Normalizer's per-column function list is
idempotent. -/
theorem zipWith_colFun_idem (dateCols excl : List String)
    (ns : List String) (ds : List Dtype) :
    ∀ f ∈ List.zipWith (colFun dateCols excl) ns ds, ∀ c, f (f c) = f c := by
  induction ns generalizing ds with
  | nil => intro f hf; simp at hf
  | cons n ns ih =>
    cases ds with
    | nil => intro f hf; simp at hf
    | cons d ds =>
      intro f hf
      rcases List.mem_cons.mp hf with h | h
      · subst h; exact colFun_idem dateCols excl n d
      · exact ih ds f h

/-- Claim C7: the Text Normalizer is idempotent — applying the
text-cleaning loop a second time, with the same detected date-column set
and the same exclusion set, leaves its own output unchanged. -/
theorem text_normalize_idempotent (dateCols excl : List String) (t : Table) :
    textNormalize dateCols excl (textNormalize dateCols excl t) =
      textNormalize dateCols excl t := by
  unfold textNormalize
  simp only [List.map_map]
  refine congrArg _ (List.map_congr_left fun r _ => ?_)
  show (r.1, applyFuns _ (applyFuns _ r.2)) = (r.1, applyFuns _ r.2)
  rw [applyFuns_idem _ (zipWith_colFun_idem dateCols excl t.names t.dtypes) r.2]

/-- Names already collected stay collected through the content pass. -/
theorem detectAux_mem_mono (parse : String → Option Nat) (t : Table)
    (a : String) :
    ∀ (L : List String) (i : Nat) (acc : List String), a ∈ acc →
      a ∈ detectAux parse t i acc L := by
  intro L
  induction L with
  | nil => intro i acc h; exact h
  | cons b rest ih =>
    intro i acc h
    unfold detectAux
    by_cases hb : b ∈ acc
    · rw [if_pos hb]; exact ih _ _ h
    · rw [if_neg hb]
      by_cases hc : contentDateLike parse (colCells t i) = true
      · rw [if_pos hc]
        exact ih _ _ (List.mem_append_left _ h)
      · rw [if_neg hc]; exact ih _ _ h

/-- A name neither collected nor remaining is never produced by the
content pass. -/
theorem detectAux_not_mem (parse : String → Option Nat) (t : Table)
    (a : String) :
    ∀ (L : List String) (i : Nat) (acc : List String), a ∉ acc →
      (∀ n ∈ L, n ≠ a) → a ∉ detectAux parse t i acc L := by
  intro L
  induction L with
  | nil => intro i acc h _; exact h
  | cons b rest ih =>
    intro i acc h hL
    unfold detectAux
    by_cases hb : b ∈ acc
    · rw [if_pos hb]
      exact ih _ _ h (fun n hn => hL n (List.mem_cons_of_mem _ hn))
    · rw [if_neg hb]
      by_cases hc : contentDateLike parse (colCells t i) = true
      · rw [if_pos hc]
        refine ih _ _ ?_ (fun n hn => hL n (List.mem_cons_of_mem _ hn))
        intro hmem
        rcases List.mem_append.mp hmem with h1 | h1
        · exact h h1
        · exact hL b (List.mem_cons_self b rest) (List.mem_singleton.mp h1).symm
      · rw [if_neg hc]
        exact ih _ _ h (fun n hn => hL n (List.mem_cons_of_mem _ hn))

/-- Characterization of the content pass: a name not already collected
is produced exactly when its column's sampled content looks date-like. -/
theorem detectAux_mem_iff (parse : String → Option Nat) (t : Table)
    (a : String) :
    ∀ (L : List String) (i : Nat) (acc : List String), a ∉ acc → L.Nodup →
      (a ∈ detectAux parse t i acc L ↔
        ∃ k, k < L.length ∧ L[k]? = some a ∧
          contentDateLike parse (colCells t (i + k)) = true) := by
  intro L
  induction L with
  | nil =>
    intro i acc h _
    simp only [detectAux]
    constructor
    · intro hmem; exact absurd hmem h
    · rintro ⟨k, hk, _⟩; simp at hk
  | cons b rest ih =>
    intro i acc h hnd
    rcases List.nodup_cons.mp hnd with ⟨hbrest, hndrest⟩
    have hshift : (∃ k, k < rest.length ∧ rest[k]? = some a ∧
        contentDateLike parse (colCells t (i + 1 + k)) = true) ↔
        (∃ k, 0 < k ∧ k < rest.length + 1 ∧ (b :: rest)[k]? = some a ∧
          contentDateLike parse (colCells t (i + k)) = true) := by
      constructor
      · rintro ⟨k, hk, hg, hc⟩
        refine ⟨k + 1, Nat.succ_pos k, by omega, ?_, ?_⟩
        · simpa using hg
        · have : i + (k + 1) = i + 1 + k := by omega
          rw [this]; exact hc
      · rintro ⟨k, hk0, hk, hg, hc⟩
        obtain ⟨k', rfl⟩ : ∃ k', k = k' + 1 := ⟨k - 1, by omega⟩
        refine ⟨k', by omega, by simpa using hg, ?_⟩
        have : i + 1 + k' = i + (k' + 1) := by omega
        rw [this]; exact hc
    unfold detectAux
    by_cases hb : b ∈ acc
    · rw [if_pos hb]
      have hab : a ≠ b := fun e => h (e ▸ hb)
      rw [ih (i + 1) acc h hndrest, hshift]
      constructor
      · rintro ⟨k, _, hk, hg, hc⟩; exact ⟨k, hk, hg, hc⟩
      · rintro ⟨k, hk, hg, hc⟩
        refine ⟨k, ?_, hk, hg, hc⟩
        rcases Nat.eq_zero_or_pos k with rfl | hpos
        · exact absurd (show b = a by simpa using hg).symm hab
        · exact hpos
    · rw [if_neg hb]
      by_cases hc : contentDateLike parse (colCells t i) = true
      · rw [if_pos hc]
        by_cases hab : a = b
        · subst hab
          constructor
          · intro _
            exact ⟨0, by simp, by simp, by simpa using hc⟩
          · intro _
            exact detectAux_mem_mono parse t a rest (i + 1) _
              (List.mem_append_right _ (List.mem_singleton.mpr rfl))
        · have hnotacc : a ∉ acc ++ [b] := by
            intro hmem
            rcases List.mem_append.mp hmem with h1 | h1
            · exact h h1
            · exact hab (List.mem_singleton.mp h1)
          rw [ih (i + 1) (acc ++ [b]) hnotacc hndrest, hshift]
          constructor
          · rintro ⟨k, _, hk, hg, hcc⟩; exact ⟨k, hk, hg, hcc⟩
          · rintro ⟨k, hk, hg, hcc⟩
            refine ⟨k, ?_, hk, hg, hcc⟩
            rcases Nat.eq_zero_or_pos k with rfl | hpos
            · exact absurd (by simpa using hg : b = a) (fun e => hab e.symm)
            · exact hpos
      · rw [if_neg hc]
        by_cases hab : a = b
        · subst hab
          constructor
          · intro hmem
            exfalso
            exact detectAux_not_mem parse t a rest (i + 1) acc h
              (fun n hn e => hbrest (e ▸ hn)) hmem
          · rintro ⟨k, hk, hg, hcc⟩
            exfalso
            rcases Nat.eq_zero_or_pos k with rfl | hpos
            · rw [show (i + 0) = i from rfl] at hcc
              exact hc hcc
            · obtain ⟨k', rfl⟩ : ∃ k', k = k' + 1 := ⟨k - 1, by omega⟩
              have : a ∈ rest := by
                have hg' : rest[k']? = some a := by simpa using hg
                exact List.getElem?_mem hg'
              exact hbrest this
        · rw [ih (i + 1) acc h hndrest, hshift]
          constructor
          · rintro ⟨k, _, hk, hg, hcc⟩; exact ⟨k, hk, hg, hcc⟩
          · rintro ⟨k, hk, hg, hcc⟩
            refine ⟨k, ?_, hk, hg, hcc⟩
            rcases Nat.eq_zero_or_pos k with rfl | hpos
            · exact absurd (by simpa using hg : b = a) (fun e => hab e.symm)
            · exact hpos

/-- The empty-sample guard of the content test is redundant with the
positivity test on the counted samples. -/
theorem contentDateLike_eq (parse : String → Option Nat) (cells : List Cell) :
    contentDateLike parse cells =
      (decide (0 < (countedCells cells).length) &&
        decide (3 * (countedCells cells).length <
          10 * indicatorCount parse cells)) := by
  unfold contentDateLike
  by_cases h : (sampledCells cells).isEmpty
  · rw [if_pos h]
    have hs : sampledCells cells = [] := List.isEmpty_iff.mp h
    have hc : countedCells cells = [] := by
      unfold countedCells
      rw [hs]
      rfl
    rw [hc]
    simp
  · rw [if_neg h]

/-- Claim C2: a column whose lower-cased name contains one of the fixed
date keywords is classified date-like by `detect_date_columns` whatever
its content, the name-based pass having collected it before the content
pass runs. -/
theorem claim_C2_name_match (parse : String → Option Nat) (t : Table)
    (name : String) (h1 : name ∈ t.names) (h2 : nameIsDateLike name = true) :
    name ∈ detectDateColumns parse t :=
  detectAux_mem_mono parse t name t.names 0 _ (List.mem_filter.mpr ⟨h1, h2⟩)

/-- Witness for claim C2 at a concrete table: the column named "date"
with non-date content is classified date-like. -/
theorem claim_C2_witness : "date" ∈ detectDateColumns demoParse tDateText :=
  claim_C2_name_match demoParse tDateText "date" (by decide) (by decide)

/-- Counterexample to claim C1 as stated: in the column "v" of
`tSparse`, one sample is attempted (digit and separator present) and
parses, the other three are skipped, so the fraction among attempted
samples is 1.0 > 0.3 and the specification's rule classifies the column
date-like; `detect_date_columns` divides by all four counted samples
(1/4 ≤ 0.3) and does not classify it. -/
theorem claim_C1_counterexample :
    nameIsDateLike "v" = false ∧
    specContentDateLike demoParse (colCells tSparse 0) = true ∧
    contentDateLike demoParse (colCells tSparse 0) = false ∧
    detectDateColumns demoParse tSparse = [] := by
  decide

/-- Claim C1 (amended): for a column not classified by name (under
duplicate-free column names), the content pass classifies it date-like
exactly when strictly more than 30% of all counted samples — every
sampled non-missing scalar value, whether or not a parse was attempted
for it — parse successfully; in particular a column with zero counted
samples, and hence also one with zero attempted samples, is never
classified by this pass. -/
theorem claim_C1_content_fraction (parse : String → Option Nat) (t : Table)
    (i : Nat) (hnd : t.names.Nodup) (hi : i < t.names.length)
    (hname : nameIsDateLike t.names[i] = false) :
    (t.names[i] ∈ detectDateColumns parse t ↔
      0 < (countedCells (colCells t i)).length ∧
        3 * (countedCells (colCells t i)).length <
          10 * indicatorCount parse (colCells t i)) := by
  have hnotacc : t.names[i] ∉ t.names.filter nameIsDateLike := by
    intro hmem
    have h2 := (List.mem_filter.mp hmem).2
    rw [hname] at h2
    exact absurd h2 (by simp)
  rw [detectDateColumns, detectAux_mem_iff parse t _ t.names 0 _ hnotacc hnd]
  constructor
  · rintro ⟨k, hk, hg, hc⟩
    have hk_eq : k = i := List.getElem?_inj hk hnd
      (by rw [hg, List.getElem?_eq_getElem hi])
    subst hk_eq
    rw [Nat.zero_add, contentDateLike_eq] at hc
    simpa using hc
  · intro h
    refine ⟨i, hi, List.getElem?_eq_getElem hi, ?_⟩
    rw [Nat.zero_add, contentDateLike_eq]
    simpa using h

/-- Witness for the amended claim C1: in `tConv`, two samples are
counted, one parses, 3·2 < 10·1, so the column "ts" is classified. -/
theorem claim_C1_witness : "ts" ∈ detectDateColumns demoParse tConv :=
  (claim_C1_content_fraction demoParse tConv 0 (by decide) (by decide)
    (by decide)).mpr (by decide)

/-- Unfolding equation of `dropDupAux` on a cons. -/
theorem dropDupAux_cons (seen : List (List Cell)) (r : Nat × List Cell)
    (rs : List (Nat × List Cell)) :
    dropDupAux seen (r :: rs) =
      if r.2 ∈ seen then dropDupAux seen rs
      else r :: dropDupAux (r.2 :: seen) rs := rfl

/-- Unfolding equation of `specDedup` on a cons. -/
theorem specDedup_cons (r : Nat × List Cell) (rs : List (Nat × List Cell)) :
    specDedup (r :: rs) =
      r :: specDedup (rs.filter (fun x => x.2 ≠ r.2)) := by
  rw [specDedup]

/-- The seen-set formulation of `drop_duplicates` computes the
keep-first-occurrence deduplication of the rows not yet seen. -/
theorem dropDupAux_eq_specDedup (rows : List (Nat × List Cell)) :
    ∀ seen, dropDupAux seen rows =
      specDedup (rows.filter (fun x => x.2 ∉ seen)) := by
  induction rows with
  | nil =>
    intro seen
    rw [List.filter_nil, specDedup]
    rfl
  | cons r rs ih =>
    intro seen
    rw [dropDupAux_cons, List.filter_cons]
    by_cases hmem : r.2 ∈ seen
    · rw [if_pos hmem]
      have hcond : decide (r.2 ∉ seen) = false :=
        decide_eq_false (fun h => h hmem)
      rw [hcond, if_neg (by simp)]
      exact ih seen
    · rw [if_neg hmem]
      have hcond : decide (r.2 ∉ seen) = true := decide_eq_true hmem
      rw [hcond, if_pos rfl]
      rw [specDedup_cons, List.filter_filter, ih (r.2 :: seen)]
      have hpred : List.filter
          (fun x => decide (x.2 ≠ r.2) && decide (x.2 ∉ seen)) rs =
          List.filter (fun x => decide (x.2 ∉ r.2 :: seen)) rs :=
        List.filter_congr (fun x _ => by
          by_cases h1 : x.2 = r.2 <;> by_cases h2 : x.2 ∈ seen <;>
            simp [h1, h2])
      rw [hpred]

/-- `drop_duplicates` keeps exactly the first occurrence of each row
value. -/
theorem dropDuplicates_eq_specDedup (rows : List (Nat × List Cell)) :
    dropDuplicates rows = specDedup rows := by
  unfold dropDuplicates
  rw [dropDupAux_eq_specDedup rows []]
  congr 1
  rw [show (fun (x : Nat × List Cell) => decide (x.2 ∉ ([] : List (List Cell))))
    = fun x => true from by
    funext x
    simp]
  exact List.filter_true rows

/-- A row is all-missing exactly when every cell is the missing marker. -/
theorem rowAllNa_iff (r : List Cell) :
    rowAllNa r = true ↔ ∀ c ∈ r, c = Cell.missing := by
  unfold rowAllNa
  rw [List.all_eq_true]
  constructor
  · intro h c hc
    have := h c hc
    cases c <;> simp [pdIsna] at this ⊢
  · intro h c hc
    rw [h c hc]
    rfl

/-- Claim C3: the Row Reducer first removes every row whose cells are
all the missing marker, then removes every row duplicating an earlier
surviving row (first occurrence kept), and renumbers the survivors with
a contiguous zero-based index. -/
theorem claim_C3_row_reducer (rows : List (Nat × List Cell)) :
    rowReduce rows =
      ((specDedup (rows.filter
        (fun r => ¬ ∀ c ∈ r.2, c = Cell.missing))).map Prod.snd).enum ∧
    (rowReduce rows).map Prod.fst = List.range (rowReduce rows).length := by
  have hfil : rows.filter (fun r => !(rowAllNa r.2)) =
      rows.filter (fun r => ¬ ∀ c ∈ r.2, c = Cell.missing) := by
    apply List.filter_congr
    intro x _
    by_cases hP : ∀ c ∈ x.2, c = Cell.missing
    · rw [(rowAllNa_iff x.2).mpr hP, decide_eq_false (fun hn => hn hP)]
      rfl
    · have hb : rowAllNa x.2 = false := by
        rcases Bool.eq_false_or_eq_true (rowAllNa x.2) with hh | hh
        · exact absurd ((rowAllNa_iff x.2).mp hh) hP
        · exact hh
      rw [hb, decide_eq_true hP]
      rfl
  constructor
  · unfold rowReduce resetIndex dropAllNaRows
    rw [dropDuplicates_eq_specDedup, hfil]
  · unfold rowReduce resetIndex
    rw [List.enum_map_fst, List.enum_length]

/-- One conversion step never changes the number of rows. -/
theorem convertStep_rows_length (parse : String → Option Nat)
    (fails : List Cell → Bool) (acc : Table × List String) (col : String) :
    (convertStep parse fails acc col).1.rows.length = acc.1.rows.length := by
  unfold convertStep
  split
  · rfl
  · split
    · rfl
    · show (mapColumn _ (coerceCell parse) acc.1.rows).length = _
      unfold mapColumn
      rw [List.length_map]

/-- The whole conversion loop never changes the number of rows. -/
theorem convert_foldl_rows_length (parse : String → Option Nat)
    (fails : List Cell → Bool) (L : List String) :
    ∀ acc : Table × List String,
      (L.foldl (convertStep parse fails) acc).1.rows.length =
        acc.1.rows.length := by
  induction L with
  | nil => intro acc; rfl
  | cons c L ih =>
    intro acc
    rw [List.foldl_cons, ih, convertStep_rows_length]

/-- Deduplication only removes rows. -/
theorem dropDupAux_length_le (rows : List (Nat × List Cell)) :
    ∀ seen, (dropDupAux seen rows).length ≤ rows.length := by
  induction rows with
  | nil => intro seen; exact Nat.le_refl 0
  | cons r rs ih =>
    intro seen
    rw [dropDupAux_cons]
    by_cases h : r.2 ∈ seen
    · rw [if_pos h]
      exact Nat.le_succ_of_le (ih seen)
    · rw [if_neg h, List.length_cons, List.length_cons]
      exact Nat.succ_le_succ (ih (r.2 :: seen))

/-- Claim C4: the reported removal metrics are consistent — the total
removed is the sum of the empty-row and duplicate-row removals, and the
final row count plus the total removed gives back the initial row
count. -/
theorem claim_C4_metrics (parse : String → Option Nat)
    (fails : List Cell → Bool) (t : Table) (excl : List String) :
    ((cleanDataframe parse fails t excl).2.totalRemoved =
      (cleanDataframe parse fails t excl).2.emptyRemoved +
        (cleanDataframe parse fails t excl).2.duplicatesRemoved) ∧
    ((cleanDataframe parse fails t excl).2.finalRows +
        (cleanDataframe parse fails t excl).2.totalRemoved =
      (cleanDataframe parse fails t excl).2.initialRows) := by
  dsimp only [cleanDataframe]
  have h1 : (convertToDatetime parse fails t
      (detectDateColumns parse t)).1.rows.length = t.rows.length :=
    convert_foldl_rows_length parse fails (detectDateColumns parse t) (t, [])
  have h2 : (textNormalize (detectDateColumns parse t) excl
      (convertToDatetime parse fails t (detectDateColumns parse t)).1).rows.length
      = t.rows.length := by
    unfold textNormalize
    rw [List.length_map]
    exact h1
  have h3 := List.length_filter_le
    (fun (r : Nat × List Cell) => !(rowAllNa r.2))
    (textNormalize (detectDateColumns parse t) excl
      (convertToDatetime parse fails t (detectDateColumns parse t)).1).rows
  have h4 := dropDupAux_length_le
    (dropAllNaRows (textNormalize (detectDateColumns parse t) excl
      (convertToDatetime parse fails t
        (detectDateColumns parse t)).1).rows) []
  have h5 : (resetIndex (dropDuplicates
      (dropAllNaRows (textNormalize (detectDateColumns parse t) excl
        (convertToDatetime parse fails t
          (detectDateColumns parse t)).1).rows))).length =
      (dropDuplicates (dropAllNaRows (textNormalize
        (detectDateColumns parse t) excl
        (convertToDatetime parse fails t
          (detectDateColumns parse t)).1).rows)).length := by
    unfold resetIndex
    rw [List.enum_length, List.length_map]
  unfold dropAllNaRows at *
  unfold dropDuplicates at *
  constructor <;> omega

/-- The cell at a position of a transformed row is the per-column
function applied to the original cell (identity beyond the function
list). -/
theorem applyFuns_getD (fs : List (Cell → Cell)) :
    ∀ (r : List Cell) (i : Nat), i < r.length →
      (applyFuns fs r).getD i Cell.missing =
        (fs.getD i id) (r.getD i Cell.missing) := by
  induction fs with
  | nil =>
    intro r i _
    rfl
  | cons f fs ih =>
    intro r i hi
    cases r with
    | nil => simp at hi
    | cons c r =>
      cases i with
      | zero => rfl
      | succ n =>
        show (applyFuns fs r).getD n Cell.missing = _
        rw [ih r n (by simpa using hi)]
        rfl

/-- Indexing a `zipWith` of the per-column functions. -/
theorem zipWith_colFun_getD (dc excl : List String) :
    ∀ (ns : List String) (ds : List Dtype) (i : Nat),
      i < ns.length → i < ds.length →
      (List.zipWith (colFun dc excl) ns ds).getD i id =
        colFun dc excl (ns.getD i "") (ds.getD i Dtype.num) := by
  intro ns
  induction ns with
  | nil => intro ds i hi _; simp at hi
  | cons n ns ih =>
    intro ds i hi hd
    cases ds with
    | nil => simp at hd
    | cons d ds =>
      cases i with
      | zero => rfl
      | succ k =>
        show (List.zipWith (colFun dc excl) ns ds).getD k id = _
        exact ih ds k (by simpa using hi) (by simpa using hd)

/-- The Text Normalizer acts on column `i` of a well-formed table by
mapping that column's per-column function over its cells. -/
theorem textNormalize_colCells (dc excl : List String) (t : Table) (i : Nat)
    (hwf : t.WF) (hi : i < t.names.length) :
    colCells (textNormalize dc excl t) i =
      (colCells t i).map
        (colFun dc excl (t.names.getD i "") (t.dtypes.getD i Dtype.num)) := by
  unfold colCells textNormalize
  simp only [List.map_map]
  apply List.map_congr_left
  intro r hr
  have hrlen : (Prod.snd r).length = t.names.length := hwf.2 r hr
  show (applyFuns (List.zipWith (colFun dc excl) t.names t.dtypes) r.2).getD i
      Cell.missing = _
  rw [applyFuns_getD _ r.2 i (by omega),
    zipWith_colFun_getD dc excl t.names t.dtypes i hi (by rw [hwf.1]; exact hi)]
  rfl

/-- The Text Normalizer changes no column names and no dtypes. -/
theorem textNormalize_names_dtypes (dc excl : List String) (t : Table) :
    (textNormalize dc excl t).names = t.names ∧
      (textNormalize dc excl t).dtypes = t.dtypes := ⟨rfl, rfl⟩

/-- Counterexample to claim C5 as stated: the date-like, text-typed
column "date" of `tDateText` is modified by the Text Normalizer (its
value " A B " is stringified and stripped to "A B"), so a column of the
date-like set is not passed through unmodified. -/
theorem claim_C5_counterexample :
    colCells (textNormalize ["date"] [] tDateText) 0 ≠ colCells tDateText 0 := by
  decide

/-- Claim C5 (amended): the Text Normalizer passes every excluded column
through unmodified, and likewise every column that is not text
(`object`)-typed — in particular every date-like column whose datetime
conversion succeeded; but a date-like column that is still
`object`-typed is stringified, stripped and sentinel-replaced (though
not lower-cased). -/
theorem claim_C5_pass_through (dc excl : List String) (t : Table) (i : Nat)
    (hwf : t.WF) (hi : i < t.names.length) :
    ((textNormalize dc excl t).names = t.names ∧
      (textNormalize dc excl t).dtypes = t.dtypes) ∧
    (t.names.getD i "" ∈ excl →
      colCells (textNormalize dc excl t) i = colCells t i) ∧
    (t.dtypes.getD i Dtype.num ≠ Dtype.obj →
      colCells (textNormalize dc excl t) i = colCells t i) ∧
    (t.names.getD i "" ∉ excl → t.dtypes.getD i Dtype.num = Dtype.obj →
      t.names.getD i "" ∈ dc →
      colCells (textNormalize dc excl t) i =
        (colCells t i).map (textCell true)) := by
  refine ⟨⟨rfl, rfl⟩, ?_, ?_, ?_⟩
  · intro hex
    rw [textNormalize_colCells dc excl t i hwf hi]
    unfold colFun
    rw [if_neg (by
      intro hcond
      rw [decide_eq_true hex] at hcond
      simp at hcond)]
    exact List.map_id _
  · intro hobj
    rw [textNormalize_colCells dc excl t i hwf hi]
    unfold colFun
    rw [if_neg (by
      intro hcond
      have hb := (Bool.and_eq_true _ _).mp hcond
      exact hobj (beq_iff_eq.mp hb.1))]
    exact List.map_id _
  · intro hex hobj hdc
    rw [textNormalize_colCells dc excl t i hwf hi]
    unfold colFun
    rw [if_pos (by rw [hobj, decide_eq_false hex]; rfl), decide_eq_true hdc]

/-- Witness for the amended claim C5: in `tMixed`, the excluded column
"ID" keeps its mixed-case, unstripped values. -/
theorem claim_C5_witness :
    colCells (textNormalize [] ["ID"] tMixed) 1 = colCells tMixed 1 :=
  ((claim_C5_pass_through [] ["ID"] tMixed 1 (by decide)
    (by decide)).2.1) (by decide)

/-- Claim C6: in a text column normalized by the Text Normalizer (text
(`object`)-typed, not excluded, not date-like), every cell whose
stripped then lower-cased string form is the literal "nan" or "none"
becomes the missing marker — case-folding happens before sentinel
replacement. -/
theorem claim_C6_sentinels (dc excl : List String) (t : Table) (i : Nat)
    (hwf : t.WF) (hi : i < t.names.length)
    (hobj : t.dtypes.getD i Dtype.num = Dtype.obj)
    (hex : t.names.getD i "" ∉ excl) (hdc : t.names.getD i "" ∉ dc) :
    colCells (textNormalize dc excl t) i =
      (colCells t i).map (textCell false) ∧
    ∀ c : Cell,
      (pyLower (pyStrip (cellStr c)) = "nan" ∨
        pyLower (pyStrip (cellStr c)) = "none") →
      textCell false c = Cell.missing := by
  constructor
  · rw [textNormalize_colCells dc excl t i hwf hi]
    unfold colFun
    rw [if_pos (by rw [hobj, decide_eq_false hex]; rfl), decide_eq_false hdc]
  · intro c hc
    rw [textCell_false_def c]
    rcases hc with hc | hc <;> simp [hc]

/-- Witness for claim C6: in `tMixed`, the "Name" column's values "NaN",
"None" and "none" all become the missing marker. -/
theorem claim_C6_witness :
    colCells (textNormalize [] ["ID"] tMixed) 0 =
      [Cell.missing, Cell.missing, Cell.missing] := by
  have h := claim_C6_sentinels [] ["ID"] tMixed 0 (by decide) (by decide)
    (by decide) (by decide) (by decide)
  rw [h.1]
  have h1 := h.2 (Cell.str "NaN") (Or.inl (by decide))
  have h2 := h.2 (Cell.str "None") (Or.inr (by decide))
  have h3 := h.2 (Cell.str "none") (Or.inr (by decide))
  show [textCell false (Cell.str "NaN"), textCell false (Cell.str "None"),
    textCell false (Cell.str "none")] = _
  rw [h1, h2, h3]

/-- `convertStep` on a column name absent from the table is the
identity (the `continue` branch). -/
theorem convertStep_of_none (p : String → Option Nat) (f : List Cell → Bool)
    (acc : Table × List String) (col : String)
    (h : findColIdx acc.1.names col = none) :
    convertStep p f acc col = acc := by
  unfold convertStep
  rw [h]

/-- `convertStep` when the column-level conversion raises: the table is
unchanged and a warning naming the column is recorded. -/
theorem convertStep_of_some_fails (p : String → Option Nat)
    (f : List Cell → Bool) (acc : Table × List String) (col : String) (i : Nat)
    (h : findColIdx acc.1.names col = some i)
    (hf : f (colCells acc.1 i) = true) :
    convertStep p f acc col = (acc.1, acc.2 ++ [col]) := by
  unfold convertStep
  rw [h]
  exact if_pos hf

/-- `convertStep` when the column-level conversion succeeds: every cell
is coerced and the column dtype becomes `datetime64`. -/
theorem convertStep_of_some_ok (p : String → Option Nat)
    (f : List Cell → Bool) (acc : Table × List String) (col : String) (i : Nat)
    (h : findColIdx acc.1.names col = some i)
    (hf : f (colCells acc.1 i) = false) :
    convertStep p f acc col =
      ({ acc.1 with
          dtypes := acc.1.dtypes.set i Dtype.dt64,
          rows := mapColumn i (coerceCell p) acc.1.rows },
        acc.2) := by
  unfold convertStep
  rw [h]
  exact if_neg (by rw [hf]; simp)

/-- A successful `findColIdx` returns a position holding the name. -/
theorem findColIdx_some (name : String) :
    ∀ (ns : List String) (i : Nat), findColIdx ns name = some i →
      i < ns.length ∧ ns.getD i "" = name := by
  intro ns
  induction ns with
  | nil => intro i h; simp [findColIdx] at h
  | cons n ns ih =>
    intro i h
    unfold findColIdx at h
    by_cases hn : n = name
    · rw [if_pos hn] at h
      injection h with h
      subst h
      exact ⟨by simp, hn⟩
    · rw [if_neg hn] at h
      cases hfind : findColIdx ns name with
      | none => rw [hfind] at h; cases h
      | some j =>
        rw [hfind] at h
        injection h with h
        subst h
        rcases ih j hfind with ⟨h1, h2⟩
        exact ⟨by simpa using Nat.succ_lt_succ h1, h2⟩

/-- `findColIdx` fails exactly on names absent from the list. -/
theorem findColIdx_none (name : String) :
    ∀ ns : List String, name ∉ ns → findColIdx ns name = none := by
  intro ns
  induction ns with
  | nil => intro _; rfl
  | cons n ns ih =>
    intro h
    unfold findColIdx
    rw [if_neg (fun e => h (by rw [← e]; exact List.mem_cons_self n ns)),
      ih (fun e => h (List.mem_cons_of_mem n e))]

/-- One conversion step never changes the column names. -/
theorem convertStep_names (p : String → Option Nat) (f : List Cell → Bool)
    (acc : Table × List String) (col : String) :
    (convertStep p f acc col).1.names = acc.1.names := by
  unfold convertStep
  split
  · rfl
  · split <;> rfl

/-- The conversion loop never changes the column names. -/
theorem convert_foldl_names (p : String → Option Nat) (f : List Cell → Bool)
    (L : List String) :
    ∀ acc : Table × List String,
      (L.foldl (convertStep p f) acc).1.names = acc.1.names := by
  induction L with
  | nil => intro acc; rfl
  | cons c L ih =>
    intro acc
    rw [List.foldl_cons, ih, convertStep_names]

/-- `mapAt` preserves row length. -/
theorem mapAt_length (f : Cell → Cell) :
    ∀ (j : Nat) (r : List Cell), (mapAt j f r).length = r.length := by
  intro j
  induction j with
  | zero =>
    intro r
    cases r with
    | nil => rfl
    | cons c r => rfl
  | succ n ih =>
    intro r
    cases r with
    | nil => rfl
    | cons c r =>
      show (mapAt n f r).length + 1 = r.length + 1
      rw [ih r]

/-- `mapAt` at another position leaves a cell unchanged. -/
theorem mapAt_getD_ne (f : Cell → Cell) :
    ∀ (r : List Cell) (j i : Nat), i ≠ j →
      (mapAt j f r).getD i Cell.missing = r.getD i Cell.missing := by
  intro r
  induction r with
  | nil => intro j i _; cases j <;> rfl
  | cons c r ih =>
    intro j i hne
    cases j with
    | zero =>
      cases i with
      | zero => exact absurd rfl hne
      | succ k => rfl
    | succ m =>
      cases i with
      | zero => rfl
      | succ k =>
        show (mapAt m f r).getD k Cell.missing = r.getD k Cell.missing
        exact ih m k (fun e => hne (by rw [e]))

/-- `mapAt` at its own position applies the function. -/
theorem mapAt_getD_eq (f : Cell → Cell) :
    ∀ (r : List Cell) (i : Nat), i < r.length →
      (mapAt i f r).getD i Cell.missing = f (r.getD i Cell.missing) := by
  intro r
  induction r with
  | nil => intro i hi; simp at hi
  | cons c r ih =>
    intro i hi
    cases i with
    | zero => rfl
    | succ k =>
      show (mapAt k f r).getD k Cell.missing = f (r.getD k Cell.missing)
      exact ih k (by simpa using hi)

/-- Setting another position of the dtype list leaves a dtype
unchanged. -/
theorem dtypes_set_getD_ne (ds : List Dtype) (j i : Nat) (a d : Dtype)
    (hne : i ≠ j) : (ds.set j a).getD i d = ds.getD i d := by
  rw [List.getD_eq_getElem?_getD, List.getElem?_set,
    if_neg (fun h => hne h.symm), ← List.getD_eq_getElem?_getD]

/-- Setting a position of the dtype list stores the new dtype. -/
theorem dtypes_set_getD_eq (ds : List Dtype) (i : Nat) (a d : Dtype)
    (hi : i < ds.length) : (ds.set i a).getD i d = a := by
  rw [List.getD_eq_getElem?_getD, List.getElem?_set, if_pos rfl, if_pos hi]
  rfl

/-- One conversion step preserves table well-formedness. -/
theorem convertStep_WF (p : String → Option Nat) (f : List Cell → Bool)
    (acc : Table × List String) (col : String) (h : acc.1.WF) :
    (convertStep p f acc col).1.WF := by
  unfold convertStep
  split
  · exact h
  · split
    · exact h
    · constructor
      · show (acc.1.dtypes.set _ Dtype.dt64).length = acc.1.names.length
        rw [List.length_set]
        exact h.1
      · intro r hr
        rcases List.mem_map.mp hr with ⟨r0, hr0, rfl⟩
        show (mapAt _ (coerceCell p) r0.2).length = acc.1.names.length
        rw [mapAt_length]
        exact h.2 r0 hr0

/-- One conversion step only appends to the warning list. -/
theorem convertStep_warn_mono (p : String → Option Nat)
    (f : List Cell → Bool) (acc : Table × List String) (col w : String)
    (h : w ∈ acc.2) : w ∈ (convertStep p f acc col).2 := by
  unfold convertStep
  split
  · exact h
  · split
    · exact List.mem_append_left _ h
    · exact h

/-- The conversion loop only appends to the warning list. -/
theorem convert_foldl_warn_mono (p : String → Option Nat)
    (f : List Cell → Bool) (L : List String) :
    ∀ (acc : Table × List String) (w : String), w ∈ acc.2 →
      w ∈ (L.foldl (convertStep p f) acc).2 := by
  induction L with
  | nil => intro acc w h; exact h
  | cons c L ih =>
    intro acc w h
    rw [List.foldl_cons]
    exact ih _ w (convertStep_warn_mono p f acc c w h)

/-- A conversion step for a different column name leaves a column's
cells and dtype unchanged. -/
theorem convertStep_untouched (p : String → Option Nat)
    (f : List Cell → Bool) (acc : Table × List String) (col : String)
    (i : Nat) (hne : acc.1.names.getD i "" ≠ col) :
    colCells (convertStep p f acc col).1 i = colCells acc.1 i ∧
      (convertStep p f acc col).1.dtypes.getD i Dtype.num =
        acc.1.dtypes.getD i Dtype.num := by
  cases hfind : findColIdx acc.1.names col with
  | none => rw [convertStep_of_none p f acc col hfind]; exact ⟨rfl, rfl⟩
  | some j =>
    have hij : i ≠ j := fun e =>
      hne (by rw [e, (findColIdx_some col acc.1.names j hfind).2])
    cases hb : f (colCells acc.1 j) with
    | true =>
      rw [convertStep_of_some_fails p f acc col j hfind hb]
      exact ⟨rfl, rfl⟩
    | false =>
      rw [convertStep_of_some_ok p f acc col j hfind hb]
      constructor
      · unfold colCells mapColumn
        simp only [List.map_map]
        apply List.map_congr_left
        intro r _
        exact mapAt_getD_ne _ r.2 j i hij
      · exact dtypes_set_getD_ne _ j i _ _ hij

/-- The conversion loop, run over names all distinct from a column's
name, leaves that column's cells and dtype unchanged. -/
theorem convert_foldl_untouched (p : String → Option Nat)
    (f : List Cell → Bool) (L : List String) :
    ∀ (acc : Table × List String) (i : Nat),
      (∀ c ∈ L, acc.1.names.getD i "" ≠ c) →
      colCells (L.foldl (convertStep p f) acc).1 i = colCells acc.1 i ∧
        (L.foldl (convertStep p f) acc).1.dtypes.getD i Dtype.num =
          acc.1.dtypes.getD i Dtype.num := by
  induction L with
  | nil => intro acc i _; exact ⟨rfl, rfl⟩
  | cons c L ih =>
    intro acc i h
    rw [List.foldl_cons]
    have hstep := convertStep_untouched p f acc c i
      (h c (List.mem_cons_self c L))
    have hnames := convertStep_names p f acc c
    have ih' := ih (convertStep p f acc c) i (fun d hd => by
      rw [hnames]
      exact h d (List.mem_cons_of_mem c hd))
    exact ⟨ih'.1.trans hstep.1, ih'.2.trans hstep.2⟩

/-- Behaviour of the conversion loop at a listed, present column: on
success every cell is coerced and the dtype becomes `datetime64`; on a
column-level failure the column is unchanged and a warning naming it is
recorded. -/
theorem convert_applies (p : String → Option Nat) (f : List Cell → Bool)
    (L : List String) :
    ∀ (acc : Table × List String) (name : String) (i : Nat),
      acc.1.WF → L.Nodup → name ∈ L →
      findColIdx acc.1.names name = some i →
      ((f (colCells acc.1 i) = false →
        colCells (L.foldl (convertStep p f) acc).1 i =
          (colCells acc.1 i).map (coerceCell p) ∧
        (L.foldl (convertStep p f) acc).1.dtypes.getD i Dtype.num =
          Dtype.dt64) ∧
       (f (colCells acc.1 i) = true →
        colCells (L.foldl (convertStep p f) acc).1 i = colCells acc.1 i ∧
        (L.foldl (convertStep p f) acc).1.dtypes.getD i Dtype.num =
          acc.1.dtypes.getD i Dtype.num ∧
        name ∈ (L.foldl (convertStep p f) acc).2)) := by
  induction L with
  | nil => intro acc name i _ _ hmem _; simp at hmem
  | cons c L ih =>
    intro acc name i hwf hnd hmem hfind
    rcases List.nodup_cons.mp hnd with ⟨hcL, hndL⟩
    rw [List.foldl_cons]
    have hi_lt : i < acc.1.names.length := (findColIdx_some name _ i hfind).1
    have hname_i : acc.1.names.getD i "" = name :=
      (findColIdx_some name _ i hfind).2
    by_cases hcn : c = name
    · subst hcn
      constructor
      · intro hf
        rw [convertStep_of_some_ok p f acc c i hfind hf]
        have hup := convert_foldl_untouched p f L
          ({ acc.1 with
              dtypes := acc.1.dtypes.set i Dtype.dt64,
              rows := mapColumn i (coerceCell p) acc.1.rows }, acc.2) i
          (fun d hd => by
            show acc.1.names.getD i "" ≠ d
            rw [hname_i]
            exact fun e => hcL (e ▸ hd))
        rw [hup.1, hup.2]
        constructor
        · unfold colCells mapColumn
          simp only [List.map_map]
          apply List.map_congr_left
          intro r hr
          show (mapAt i (coerceCell p) r.2).getD i Cell.missing = _
          rw [mapAt_getD_eq _ r.2 i (by rw [hwf.2 r hr]; exact hi_lt)]
          rfl
        · exact dtypes_set_getD_eq acc.1.dtypes i Dtype.dt64 Dtype.num
            (by rw [hwf.1]; exact hi_lt)
      · intro hf
        rw [convertStep_of_some_fails p f acc c i hfind hf]
        have hup := convert_foldl_untouched p f L (acc.1, acc.2 ++ [c]) i
          (fun d hd => by
            show acc.1.names.getD i "" ≠ d
            rw [hname_i]
            exact fun e => hcL (e ▸ hd))
        refine ⟨hup.1, hup.2, ?_⟩
        exact convert_foldl_warn_mono p f L _ c
          (List.mem_append_right _ (List.mem_singleton.mpr rfl))
    · have hstep_names := convertStep_names p f acc c
      have hne : acc.1.names.getD i "" ≠ c := by
        rw [hname_i]
        exact fun e => hcn e.symm
      have hstep := convertStep_untouched p f acc c i hne
      have hfind' : findColIdx (convertStep p f acc c).1.names name = some i := by
        rw [hstep_names]
        exact hfind
      have hwf' := convertStep_WF p f acc c hwf
      have hmem' : name ∈ L := by
        rcases List.mem_cons.mp hmem with h | h
        · exact absurd h.symm hcn
        · exact h
      have IH := ih (convertStep p f acc c) name i hwf' hndL hmem' hfind'
      constructor
      · intro hf
        have h1 := IH.1 (by rw [hstep.1]; exact hf)
        exact ⟨by rw [h1.1, hstep.1], h1.2⟩
      · intro hf
        have h1 := IH.2 (by rw [hstep.1]; exact hf)
        exact ⟨by rw [h1.1, hstep.1], by rw [h1.2.1, hstep.2], h1.2.2⟩

/-- Claim C8: `convert_to_datetime` silently skips listed columns absent
from the table; for a listed, present column it replaces every cell by
its parsed datetime, each individually unparsable or missing value
becoming the missing marker (never an error); and on a column-level
conversion failure it records a warning naming the column and leaves the
column's cells and dtype unmodified instead of aborting. -/
theorem claim_C8_convert (parse : String → Option Nat)
    (fails : List Cell → Bool) (t : Table) (dateCols : List String) :
    (∀ (name : String) (rest : List String), name ∉ t.names →
      convertToDatetime parse fails t (name :: rest) =
        convertToDatetime parse fails t rest) ∧
    (∀ (name : String) (i : Nat), t.WF → dateCols.Nodup → name ∈ dateCols →
      findColIdx t.names name = some i →
      ((fails (colCells t i) = false →
        colCells (convertToDatetime parse fails t dateCols).1 i =
          (colCells t i).map (coerceCell parse) ∧
        (convertToDatetime parse fails t dateCols).1.dtypes.getD i Dtype.num =
          Dtype.dt64) ∧
       (fails (colCells t i) = true →
        colCells (convertToDatetime parse fails t dateCols).1 i =
          colCells t i ∧
        (convertToDatetime parse fails t dateCols).1.dtypes.getD i Dtype.num =
          t.dtypes.getD i Dtype.num ∧
        name ∈ (convertToDatetime parse fails t dateCols).2))) ∧
    (∀ c : Cell, parse (cellStr c) = none →
      coerceCell parse c = Cell.missing) ∧
    coerceCell parse Cell.missing = Cell.missing := by
  refine ⟨?_, ?_, ?_, rfl⟩
  · intro name rest hnot
    unfold convertToDatetime
    rw [List.foldl_cons,
      convertStep_of_none parse fails (t, []) name
        (findColIdx_none name t.names hnot)]
  · intro name i hwf hnd hmem hfind
    exact convert_applies parse fails dateCols (t, []) name i hwf hnd hmem hfind
  · intro c hc
    cases c <;> simp [coerceCell, hc]

/-- Witness for claim C8: converting the "ts" column of `tConv` parses
"1-2-2020", turns "oops" into the missing marker and keeps the missing
cell missing. -/
theorem claim_C8_witness :
    colCells (convertToDatetime demoParse (fun _ => false) tConv ["ts"]).1 0 =
      (colCells tConv 0).map (coerceCell demoParse) :=
  (((claim_C8_convert demoParse (fun _ => false) tConv ["ts"]).2.1 "ts" 0
    (by decide) (by decide) (by decide) (by decide)).1 rfl).1

/-- Claim C9: `clean_dataframe` operates on a fresh copy — the caller's
slot still holds the original table after the call, and the fresh slot
holds the pipeline's result computed from that original table. -/
theorem claim_C9_no_mutation (parse : String → Option Nat)
    (fails : List Cell → Bool) (excl : List String) (s : List Table)
    (i : Nat) (hi : i < s.length) :
    storeGet (cleanStore parse fails excl s i).1 i = storeGet s i ∧
    storeGet (cleanStore parse fails excl s i).1
        (cleanStore parse fails excl s i).2 =
      (cleanDataframe parse fails (storeGet s i) excl).1 := by
  unfold cleanStore storeGet storeSet
  constructor
  · rw [List.getD_eq_getElem?_getD, List.getElem?_set,
      if_neg (by omega), List.getElem?_append, if_pos hi,
      ← List.getD_eq_getElem?_getD]
  · have hlen : s.length < (s ++ [s.getD i
        { names := [], dtypes := [], rows := [] }]).length := by
      rw [List.length_append]
      simp
    have hcopy : (s ++ [s.getD i { names := [], dtypes := [], rows := [] }]).getD
        s.length { names := [], dtypes := [], rows := [] } =
        s.getD i { names := [], dtypes := [], rows := [] } := by
      rw [List.getD_eq_getElem?_getD, List.getElem?_concat_length]
      rfl
    rw [List.getD_eq_getElem?_getD, List.getElem?_set, if_pos rfl,
      if_pos hlen, hcopy]
    rfl

/-- Deduplication yields a sublist of the rows. -/
theorem dropDupAux_sublist (rows : List (Nat × List Cell)) :
    ∀ seen, (dropDupAux seen rows).Sublist rows := by
  induction rows with
  | nil => intro seen; exact List.Sublist.refl []
  | cons r rs ih =>
    intro seen
    rw [dropDupAux_cons]
    by_cases h : r.2 ∈ seen
    · rw [if_pos h]
      exact List.Sublist.cons r (ih seen)
    · rw [if_neg h]
      exact List.Sublist.cons₂ r (ih (r.2 :: seen))

/-- Witness for claim C9: cleaning slot 0 of a one-table store leaves
the caller's table unchanged in slot 0. -/
theorem claim_C9_witness :
    0 < [tMixed].length ∧
    storeGet (cleanStore demoParse (fun _ => false) [] [tMixed] 0).1 0 =
      storeGet [tMixed] 0 :=
  ⟨by decide,
    (claim_C9_no_mutation demoParse (fun _ => false) [] [tMixed] 0
      (by decide)).1⟩

/-- One conversion step transforms each row by its concrete per-row
function. -/
theorem convertStep_rows_eq (p : String → Option Nat) (f : List Cell → Bool)
    (acc : Table × List String) (col : String) :
    (convertStep p f acc col).1.rows =
      acc.1.rows.map (fun r => (r.1, convertStepRowFun p f acc col r.2)) := by
  cases hfind : findColIdx acc.1.names col with
  | none =>
    rw [convertStep_of_none p f acc col hfind]
    unfold convertStepRowFun
    rw [hfind]
    simp
  | some j =>
    cases hb : f (colCells acc.1 j) with
    | true =>
      rw [convertStep_of_some_fails p f acc col j hfind hb]
      unfold convertStepRowFun
      rw [hfind]
      simp [hb]
    | false =>
      rw [convertStep_of_some_ok p f acc col j hfind hb]
      unfold convertStepRowFun
      rw [hfind]
      simp only [hb, Bool.false_eq_true, if_false]
      rfl

/-- The whole conversion loop transforms each row by its concrete
per-row function. -/
theorem convert_foldl_rows_eq (p : String → Option Nat)
    (f : List Cell → Bool) (L : List String) :
    ∀ acc : Table × List String,
      (L.foldl (convertStep p f) acc).1.rows =
        acc.1.rows.map (fun r => (r.1, convertRowFunAux p f L acc r.2)) := by
  induction L with
  | nil =>
    intro acc
    show acc.1.rows = acc.1.rows.map (fun r => (r.1, r.2))
    simp
  | cons col rest ih =>
    intro acc
    rw [List.foldl_cons, ih (convertStep p f acc col),
      convertStep_rows_eq p f acc col, List.map_map]
    rfl

/-- Claim C10: the cleaned table has exactly the input's columns, in
order, and its surviving rows are the images of input rows under the
pipeline's concrete per-row normalization (datetime conversion then
text normalization), kept in their original relative order — a sublist
of the pointwise-normalized input row sequence. -/
theorem claim_C10_shape (parse : String → Option Nat)
    (fails : List Cell → Bool) (t : Table) (excl : List String) :
    (cleanDataframe parse fails t excl).1.names = t.names ∧
    ((cleanDataframe parse fails t excl).1.rows.map Prod.snd).Sublist
      ((t.rows.map Prod.snd).map (fun cells =>
        textRowFun (detectDateColumns parse t) excl
          (convertToDatetime parse fails t (detectDateColumns parse t)).1
          (convertRowFun parse fails t (detectDateColumns parse t) cells))) := by
  constructor
  · show (textNormalize (detectDateColumns parse t) excl
      (convertToDatetime parse fails t (detectDateColumns parse t)).1).names
      = t.names
    unfold textNormalize
    exact convert_foldl_names parse fails (detectDateColumns parse t) (t, [])
  · set dc := detectDateColumns parse t with hdc
    show ((resetIndex (dropDuplicates (dropAllNaRows
      (textNormalize dc excl
        (convertToDatetime parse fails t dc).1).rows))).map Prod.snd).Sublist _
    unfold resetIndex
    rw [List.enum_map_snd]
    have h1 : (dropDuplicates (dropAllNaRows
        (textNormalize dc excl
          (convertToDatetime parse fails t dc).1).rows)).Sublist
        (textNormalize dc excl
          (convertToDatetime parse fails t dc).1).rows :=
      List.Sublist.trans (dropDupAux_sublist _ [])
        (List.filter_sublist _)
    have h3 : ((textNormalize dc excl
        (convertToDatetime parse fails t dc).1).rows.map Prod.snd) =
        (t.rows.map Prod.snd).map (fun cells =>
          textRowFun dc excl (convertToDatetime parse fails t dc).1
            (convertRowFun parse fails t dc cells)) := by
      show ((convertToDatetime parse fails t dc).1.rows.map
        (fun r => (r.1, applyFuns (List.zipWith (colFun dc excl)
          (convertToDatetime parse fails t dc).1.names
          (convertToDatetime parse fails t dc).1.dtypes) r.2))).map Prod.snd = _
      rw [show (convertToDatetime parse fails t dc).1.rows =
        t.rows.map (fun r => (r.1, convertRowFunAux parse fails dc (t, []) r.2))
        from convert_foldl_rows_eq parse fails dc (t, [])]
      rw [List.map_map, List.map_map, List.map_map]
      rfl
    rw [← h3]
    exact h1.map Prod.snd
